import Mathlib

/-!
Verification of the `upload_to_gis` repository.

The development shallowly embeds the Python sources:

* `src/from_CC_to_GIS.py` — the key-based reconciler
  `upsert_blocks_and_parcels`, the extraction loop of `main` with
  `wkt_to_arcpy_geometry` and `map_json_to_gdb_columns`;
* `src/common/db_operations.py` — `get_sql_from_columns_names`.

Records flowing through the reconciler are the tuples produced by an
`arcpy.da` cursor over a fixed `field_names` list: position 0 is the
geometry (`SHAPE@`) and positions 1, 2, 3 are the composite-key fields.
We model a record as `List α` for an arbitrary type `α` with decidable
equality (the algorithm only ever compares key fields for equality), and
the key as the triple of optional reads at positions 1, 2, 3.

External effects are modelled explicitly:

* the destination table is a list of records, mutated by the pass;
* Python dicts keyed by the composite key become association lists built
  by insertion-order preserving, last-write-wins insertion (`dictInsert`);
* the per-record `try/except` blocks become failure oracles
  (`failUp : Key α → Bool` for the insert/update branch,
  `failDel : List α → Bool` for `deleteRow`): when the oracle fires the
  store operation raises before mutating and the handler runs;
* `arcpy.da.UpdateCursor` with the update `where_clause` selects the
  rows whose key fields equal the given key (the clause addresses the
  three key columns of the destination store by name; the destination
  schema itself is external to the repository), and the code breaks
  after updating the first match;
* the WKT parser of `arcpy.FromWKT` and the database query of
  `get_sql_from_columns_names` become oracle parameters.
-/

namespace UploadToGis

variable {α : Type} [DecidableEq α]

/-- The composite key of a record: the fields at positions 1, 2, 3 of the
cursor tuple (`(target_bp[1], target_bp[2], target_bp[3])` in the code).
Reads are optional so that short tuples are representable. -/
abbrev Key (α : Type) := Option α × Option α × Option α

/-- Key extraction, `(bp[1], bp[2], bp[3])`. -/
def rowKey (r : List α) : Key α := (r.get? 1, r.get? 2, r.get? 3)

/-- One Python dict assignment `d[k] = v`: if the key is present its value
is overwritten in place (insertion position kept), otherwise the pair is
appended at the end. -/
def dictInsert (d : List (Key α × List α)) (k : Key α) (v : List α) :
    List (Key α × List α) :=
  if k ∈ d.map Prod.fst then
    d.map (fun p => if p.1 = k then (k, v) else p)
  else d ++ [(k, v)]

/-- Building `blocks_and_parcels_dic_*`: a full-table scan inserting each
row under its composite key, in row order. -/
def buildDict (rows : List (List α)) : List (Key α × List α) :=
  rows.foldl (fun d r => dictInsert d (rowKey r) r) []

/-- The key list of a dict built from a table (used for the membership
test `key in blocks_and_parcels_dic_destination` and the set difference). -/
def dictKeys (rows : List (List α)) : List (Key α) :=
  (buildDict rows).map Prod.fst

/-- The update branch: `arcpy.da.UpdateCursor` filtered by the composite
key; `cursor.updateRow(bp)` then `break`, so only the first matching row
is replaced. If no row matches, the cursor body never runs. -/
def updateFirst (k : Key α) (bp : List α) : List (List α) → List (List α)
  | [] => []
  | r :: rs => if rowKey r = k then bp :: rs else r :: updateFirst k bp rs

/-- Mutable state of the upsert loop: the destination table plus the
`success_count` and `fail_count` counters.  `ins` additionally observes
how many times the insert branch ran (the code takes this branch but
keeps no separate counter for it). -/
structure UpState (α : Type) where
  dest : List (List α)
  success : Nat
  fail : Nat
  ins : Nat

/-- One iteration of the upsert loop over a `(key, bp)` dict entry:
the `try` body either raises (oracle fires; `fail_count += 1`), updates
an existing record, or inserts a new one (`success_count += 1`). -/
def upsertStep (destKeys : List (Key α)) (failUp : Key α → Bool)
    (st : UpState α) (e : Key α × List α) : UpState α :=
  if failUp e.1 then
    { st with fail := st.fail + 1 }
  else if e.1 ∈ destKeys then
    { st with dest := updateFirst e.1 e.2 st.dest, success := st.success + 1 }
  else
    { st with dest := st.dest ++ [e.2], success := st.success + 1,
              ins := st.ins + 1 }

/-- The upsert loop over the source dict entries, in dict order. -/
def upsertLoop (destKeys : List (Key α)) (failUp : Key α → Bool)
    (st : UpState α) : List (Key α × List α) → UpState α
  | [] => st
  | e :: rest => upsertLoop destKeys failUp (upsertStep destKeys failUp st e) rest

/-- The deletion pass: a full cursor over the destination; each row whose
key is a deletion candidate is deleted (`delete_count += 1`) unless
`deleteRow` raises, in which case the handler logs and continues without
touching any counter.  Returns the survivors and `delete_count`. -/
def deletePass (toDelete : List (Key α)) (failDel : List α → Bool) :
    List (List α) → List (List α) × Nat
  | [] => ([], 0)
  | r :: rs =>
    let rest := deletePass toDelete failDel rs
    if rowKey r ∈ toDelete then
      if failDel r then (r :: rest.1, rest.2) else (rest.1, rest.2 + 1)
    else (r :: rest.1, rest.2)

/-- `set(destination keys) - set(source keys)`, as the (duplicate-free)
key list of the destination dict filtered by non-membership in the
source dict. -/
def toDeleteOf (destRows srcRows : List (List α)) : List (Key α) :=
  (dictKeys destRows).filter (fun k => decide (k ∉ dictKeys srcRows))

/-- The outcome of a reconciliation run: final destination table and the
three reported counters (plus the insert-branch observation `ins`). -/
structure UpsertResult (α : Type) where
  dest : List (List α)
  success : Nat
  fail : Nat
  deleted : Nat
  ins : Nat

/-- `upsert_blocks_and_parcels` of `src/from_CC_to_GIS.py`: build both
dicts, run the upsert loop over the source dict, then (when the
candidate set is nonempty) run the deletion pass over the mutated
destination. -/
def upsert_blocks_and_parcels (destRows srcRows : List (List α))
    (failUp : Key α → Bool) (failDel : List α → Bool) : UpsertResult α :=
  let st := upsertLoop (dictKeys destRows) failUp ⟨destRows, 0, 0, 0⟩ (buildDict srcRows)
  let td := toDeleteOf destRows srcRows
  if td.isEmpty then ⟨st.dest, st.success, st.fail, 0, st.ins⟩
  else
    ⟨(deletePass td failDel st.dest).1, st.success, st.fail,
     (deletePass td failDel st.dest).2, st.ins⟩

/-! ### Dictionary lemmas -/

theorem dictInsert_keys (d : List (Key α × List α)) (k : Key α) (v : List α) :
    (dictInsert d k v).map Prod.fst =
      if k ∈ d.map Prod.fst then d.map Prod.fst else d.map Prod.fst ++ [k] := by
  unfold dictInsert
  split
  · simp only [List.map_map]
    refine List.map_congr_left ?_
    intro p _
    by_cases h : p.1 = k <;> simp [h]
  · simp

theorem mem_dictInsert_keys (d : List (Key α × List α)) (k : Key α) (v : List α)
    (k' : Key α) :
    k' ∈ (dictInsert d k v).map Prod.fst ↔ k' ∈ d.map Prod.fst ∨ k' = k := by
  rw [dictInsert_keys]
  split
  · constructor
    · exact Or.inl
    · rintro (h | rfl)
      · exact h
      · assumption
  · simp

theorem mem_foldl_dictInsert_keys (rows : List (List α))
    (d : List (Key α × List α)) (k : Key α) :
    (k ∈ ((rows.foldl (fun d r => dictInsert d (rowKey r) r) d).map Prod.fst)) ↔
      k ∈ d.map Prod.fst ∨ k ∈ rows.map rowKey := by
  induction rows generalizing d with
  | nil => simp
  | cons r rs ih =>
    simp only [List.foldl_cons, ih, mem_dictInsert_keys, List.map_cons, List.mem_cons]
    tauto

theorem mem_dictKeys (rows : List (List α)) (k : Key α) :
    k ∈ dictKeys rows ↔ k ∈ rows.map rowKey := by
  unfold dictKeys buildDict
  rw [mem_foldl_dictInsert_keys]
  simp

theorem dictInsert_entry_key (d : List (Key α × List α)) (k : Key α) (v : List α)
    (hd : ∀ e ∈ d, rowKey e.2 = e.1) (hv : rowKey v = k) :
    ∀ e ∈ dictInsert d k v, rowKey e.2 = e.1 := by
  unfold dictInsert
  split
  · intro e he
    simp only [List.mem_map] at he
    obtain ⟨p, hp, rfl⟩ := he
    by_cases h : p.1 = k <;> simp [h, hd p hp, hv]
  · intro e he
    rcases List.mem_append.1 he with h | h
    · exact hd e h
    · simp only [List.mem_singleton] at h
      subst h
      exact hv

theorem buildDict_entry_key (rows : List (List α)) :
    ∀ e ∈ buildDict rows, rowKey e.2 = e.1 := by
  unfold buildDict
  suffices h : ∀ (d : List (Key α × List α)), (∀ e ∈ d, rowKey e.2 = e.1) →
      ∀ e ∈ rows.foldl (fun d r => dictInsert d (rowKey r) r) d, rowKey e.2 = e.1 by
    exact h [] (by simp)
  induction rows with
  | nil => intro d hd; simpa using hd
  | cons r rs ih =>
    intro d hd
    exact ih _ (dictInsert_entry_key d (rowKey r) r hd rfl)

theorem buildDict_keys_nodup (rows : List (List α)) :
    ((buildDict rows).map Prod.fst).Nodup := by
  unfold buildDict
  suffices h : ∀ (d : List (Key α × List α)), (d.map Prod.fst).Nodup →
      ((rows.foldl (fun d r => dictInsert d (rowKey r) r) d).map Prod.fst).Nodup by
    exact h [] (by simp)
  induction rows with
  | nil => intro d hd; simpa using hd
  | cons r rs ih =>
    intro d hd
    refine ih _ ?_
    rw [dictInsert_keys]
    split
    · exact hd
    · rename_i hnot
      rw [List.nodup_append]
      refine ⟨hd, List.nodup_singleton _, ?_⟩
      intro x hx hx2
      simp only [List.mem_singleton] at hx2
      subst hx2
      exact hnot hx

theorem buildDict_eq_map (rows : List (List α)) (h : (rows.map rowKey).Nodup) :
    buildDict rows = rows.map (fun r => (rowKey r, r)) := by
  unfold buildDict
  suffices haux : ∀ (d : List (Key α × List α)),
      (∀ r ∈ rows, rowKey r ∉ d.map Prod.fst) → (rows.map rowKey).Nodup →
      rows.foldl (fun d r => dictInsert d (rowKey r) r) d =
        d ++ rows.map (fun r => (rowKey r, r)) by
    simpa using haux [] (by simp) h
  clear h
  induction rows with
  | nil => intro d _ _; simp
  | cons r rs ih =>
    intro d hdisj hnd
    simp only [List.map_cons, List.nodup_cons] at hnd
    have hins : dictInsert d (rowKey r) r = d ++ [(rowKey r, r)] := by
      unfold dictInsert
      rw [if_neg (hdisj r (by simp))]
    simp only [List.foldl_cons, hins]
    rw [ih (d ++ [(rowKey r, r)]) ?_ hnd.2]
    · simp
    · intro r' hr'
      simp only [List.map_append, List.mem_append] at *
      push_neg
      refine ⟨hdisj r' (by simp [hr']), ?_⟩
      simp only [List.map_cons, List.mem_singleton, List.map_nil]
      intro hc
      exact hnd.1 (hc ▸ List.mem_map_of_mem rowKey hr')

theorem mem_toDeleteOf (destRows srcRows : List (List α)) (k : Key α) :
    k ∈ toDeleteOf destRows srcRows ↔
      k ∈ destRows.map rowKey ∧ k ∉ srcRows.map rowKey := by
  unfold toDeleteOf
  rw [List.mem_filter]
  simp only [decide_eq_true_eq]
  rw [mem_dictKeys, mem_dictKeys]

/-! ### Filter and `updateFirst` lemmas -/

theorem filter_key_of_not_mem (rows : List (List α)) (k : Key α)
    (h : k ∉ rows.map rowKey) :
    rows.filter (fun x => decide (rowKey x = k)) = [] := by
  rw [List.filter_eq_nil_iff]
  intro a ha
  simp only [decide_eq_true_eq]
  intro hc
  exact h (hc ▸ List.mem_map_of_mem rowKey ha)

theorem filter_key_singleton_of_nodup (rows : List (List α)) (r : List α)
    (hnd : (rows.map rowKey).Nodup) (hr : r ∈ rows) :
    rows.filter (fun x => decide (rowKey x = rowKey r)) = [r] := by
  induction rows with
  | nil => cases hr
  | cons a rs ih =>
    simp only [List.map_cons, List.nodup_cons] at hnd
    rcases List.mem_cons.1 hr with rfl | hr'
    · rw [List.filter_cons_of_pos (by simp)]
      rw [filter_key_of_not_mem rs (rowKey r) hnd.1]
    · have hne : rowKey a ≠ rowKey r := by
        intro hc
        exact hnd.1 (hc ▸ List.mem_map_of_mem rowKey hr')
      rw [List.filter_cons_of_neg (by simpa using hne), ih hnd.2 hr']

theorem filter_updateFirst (p : List α → Bool) (k : Key α) (bp : List α)
    (rows : List (List α)) (hbp : p bp = false)
    (hk : ∀ r : List α, rowKey r = k → p r = false) :
    (updateFirst k bp rows).filter p = rows.filter p := by
  induction rows with
  | nil => rfl
  | cons a rs ih =>
    unfold updateFirst
    by_cases h : rowKey a = k
    · rw [if_pos h, List.filter_cons_of_neg (by simp [hbp]),
        List.filter_cons_of_neg (by simp [hk a h])]
    · rw [if_neg h]
      by_cases hp : p a
      · rw [List.filter_cons_of_pos hp, List.filter_cons_of_pos hp, ih]
      · rw [List.filter_cons_of_neg (by simpa using hp),
          List.filter_cons_of_neg (by simpa using hp), ih]

theorem filter_updateFirst_singleton (k : Key α) (bp : List α)
    (rows : List (List α)) (d : List α) (hbp : rowKey bp = k)
    (h : rows.filter (fun x => decide (rowKey x = k)) = [d]) :
    (updateFirst k bp rows).filter (fun x => decide (rowKey x = k)) = [bp] := by
  induction rows with
  | nil => simp at h
  | cons a rs ih =>
    unfold updateFirst
    by_cases ha : rowKey a = k
    · rw [if_pos ha, List.filter_cons_of_pos (by simpa using hbp)]
      rw [List.filter_cons_of_pos (by simpa using ha)] at h
      have : rs.filter (fun x => decide (rowKey x = k)) = [] :=
        List.tail_eq_of_cons_eq h
      rw [this]
    · rw [if_neg ha, List.filter_cons_of_neg (by simpa using ha)]
      rw [List.filter_cons_of_neg (by simpa using ha)] at h
      exact ih h

theorem updateFirst_self (k : Key α) (r : List α) (rows : List (List α))
    (h : rows.filter (fun x => decide (rowKey x = k)) = [r]) :
    updateFirst k r rows = rows := by
  induction rows with
  | nil => rfl
  | cons a rs ih =>
    unfold updateFirst
    by_cases ha : rowKey a = k
    · rw [List.filter_cons_of_pos (by simpa using ha)] at h
      rw [if_pos ha, List.head_eq_of_cons_eq h]
    · rw [List.filter_cons_of_neg (by simpa using ha)] at h
      rw [if_neg ha, ih h]

theorem mem_updateFirst_of_ne (k : Key α) (bp : List α) (rows : List (List α))
    (r : List α) (hr : r ∈ rows) (hne : rowKey r ≠ k) :
    r ∈ updateFirst k bp rows := by
  induction rows with
  | nil => cases hr
  | cons a rs ih =>
    unfold updateFirst
    by_cases ha : rowKey a = k
    · rw [if_pos ha]
      rcases List.mem_cons.1 hr with rfl | hr'
      · exact absurd ha hne
      · exact List.mem_cons_of_mem _ hr'
    · rw [if_neg ha]
      rcases List.mem_cons.1 hr with rfl | hr'
      · exact List.mem_cons_self _ _
      · exact List.mem_cons_of_mem _ (ih hr')

/-! ### Upsert-loop lemmas -/

theorem upsertLoop_dest_filter (destKeys : List (Key α)) (failUp : Key α → Bool)
    (p : List α → Bool) (entries : List (Key α × List α)) (st : UpState α)
    (h : ∀ e ∈ entries, p e.2 = false ∧ ∀ r : List α, rowKey r = e.1 → p r = false) :
    ((upsertLoop destKeys failUp st entries).dest).filter p = st.dest.filter p := by
  induction entries generalizing st with
  | nil => rfl
  | cons e rest ih =>
    have he := h e (by simp)
    have hrest : ∀ e' ∈ rest, p e'.2 = false ∧ ∀ r : List α, rowKey r = e'.1 → p r = false :=
      fun e' he' => h e' (List.mem_cons_of_mem _ he')
    show ((upsertLoop destKeys failUp (upsertStep destKeys failUp st e) rest).dest).filter p
        = st.dest.filter p
    rw [ih _ hrest]
    unfold upsertStep
    by_cases h1 : failUp e.1
    · rw [if_pos h1]
    · rw [if_neg h1]
      by_cases h2 : e.1 ∈ destKeys
      · rw [if_pos h2]
        exact filter_updateFirst p e.1 e.2 st.dest he.1 he.2
      · rw [if_neg h2]
        simp [List.filter_append, he.1]

theorem upsertLoop_key_filter (destKeys : List (Key α)) (failUp : Key α → Bool)
    (k : Key α) (r : List α) (hfail : failUp k = false) :
    ∀ (entries : List (Key α × List α)) (st : UpState α),
      (∀ e ∈ entries, rowKey e.2 = e.1) →
      (entries.map Prod.fst).Nodup →
      (k, r) ∈ entries →
      (if k ∈ destKeys then
         ∃ d, st.dest.filter (fun x => decide (rowKey x = k)) = [d]
       else st.dest.filter (fun x => decide (rowKey x = k)) = []) →
      ((upsertLoop destKeys failUp st entries).dest).filter
          (fun x => decide (rowKey x = k)) = [r] := by
  intro entries
  induction entries with
  | nil => intro st _ _ hmem _; cases hmem
  | cons e rest ih =>
    intro st hks hnd hmem hst
    simp only [List.map_cons, List.nodup_cons] at hnd
    show ((upsertLoop destKeys failUp (upsertStep destKeys failUp st e) rest).dest).filter
        (fun x => decide (rowKey x = k)) = [r]
    rcases List.mem_cons.1 hmem with heq | hmem'
    · -- the entry for key `k` is processed now; afterwards no entry touches `k`
      have hkrest : ∀ e' ∈ rest, (fun x => decide (rowKey x = k)) e'.2 = false ∧
          ∀ x : List α, rowKey x = e'.1 → (fun x => decide (rowKey x = k)) x = false := by
        intro e' he'
        have hne : e'.1 ≠ k := by
          intro hc
          apply hnd.1
          have hmm : e'.1 ∈ rest.map Prod.fst := List.mem_map_of_mem Prod.fst he'
          rw [hc] at hmm
          have hk1 : e.1 = k := by rw [← heq]
          rw [hk1]
          exact hmm
        constructor
        · simp only [decide_eq_false_iff_not]
          rw [hks e' (List.mem_cons_of_mem _ he')]
          exact hne
        · intro x hx
          simp only [decide_eq_false_iff_not]
          rw [hx]
          exact hne
      rw [upsertLoop_dest_filter destKeys failUp _ rest _ hkrest]
      have hk1 : e.1 = k := by rw [← heq]
      have hv : e.2 = r := by rw [← heq]
      unfold upsertStep
      rw [hk1, hv]
      rw [if_neg (by simp [hfail])]
      by_cases h2 : k ∈ destKeys
      · rw [if_pos h2]
        rw [if_pos h2] at hst
        obtain ⟨d, hd⟩ := hst
        refine filter_updateFirst_singleton k r st.dest d ?_ hd
        have := hks e (List.mem_cons_self _ _)
        rw [hv, hk1] at this
        exact this
      · rw [if_neg h2]
        rw [if_neg h2] at hst
        simp only [List.filter_append, hst, List.nil_append]
        have hkr : rowKey r = k := by
          have := hks e (List.mem_cons_self _ _)
          rw [hv, hk1] at this
          exact this
        rw [List.filter_cons_of_pos (by simp [hkr])]
        rfl
    · -- a different key is processed first; the `k`-filter of the state is unchanged
      have hne : e.1 ≠ k := by
        intro hc
        apply hnd.1
        have hmm : (k, r).1 ∈ rest.map Prod.fst := List.mem_map_of_mem Prod.fst hmem'
        rw [hc]
        exact hmm
      refine ih _ (fun e' he' => hks e' (List.mem_cons_of_mem _ he')) hnd.2 hmem' ?_
      have hfilter : ((upsertStep destKeys failUp st e).dest).filter
          (fun x => decide (rowKey x = k)) = st.dest.filter (fun x => decide (rowKey x = k)) := by
        unfold upsertStep
        by_cases h1 : failUp e.1
        · rw [if_pos h1]
        · rw [if_neg h1]
          by_cases h2 : e.1 ∈ destKeys
          · rw [if_pos h2]
            refine filter_updateFirst _ e.1 e.2 st.dest ?_ ?_
            · simp only [decide_eq_false_iff_not]
              rw [hks e (List.mem_cons_self _ _)]
              exact hne
            · intro x hx
              simp only [decide_eq_false_iff_not]
              rw [hx]
              exact hne
          · rw [if_neg h2]
            simp only [List.filter_append]
            rw [List.filter_cons_of_neg, List.filter_nil, List.append_nil]
            simp only [decide_eq_true_eq]
            rw [hks e (List.mem_cons_self _ _)]
            exact hne
      split
      · rename_i hk
        rw [if_pos hk] at hst
        obtain ⟨d, hd⟩ := hst
        exact ⟨d, by rw [hfilter, hd]⟩
      · rename_i hk
        rw [if_neg hk] at hst
        rw [hfilter, hst]

theorem upsertLoop_success (destKeys : List (Key α)) (failUp : Key α → Bool)
    (st : UpState α) (entries : List (Key α × List α)) :
    (upsertLoop destKeys failUp st entries).success =
      st.success + (entries.filter (fun e => !failUp e.1)).length := by
  induction entries generalizing st with
  | nil => simp [upsertLoop]
  | cons e rest ih =>
    show (upsertLoop destKeys failUp (upsertStep destKeys failUp st e) rest).success = _
    rw [ih]
    unfold upsertStep
    by_cases h1 : failUp e.1
    · rw [if_pos h1, List.filter_cons_of_neg (by simp [h1])]
    · rw [if_neg h1, List.filter_cons_of_pos (by simp [h1])]
      by_cases h2 : e.1 ∈ destKeys
      · rw [if_pos h2]
        simp only [List.length_cons]
        omega
      · rw [if_neg h2]
        simp only [List.length_cons]
        omega

theorem upsertLoop_fail (destKeys : List (Key α)) (failUp : Key α → Bool)
    (st : UpState α) (entries : List (Key α × List α)) :
    (upsertLoop destKeys failUp st entries).fail =
      st.fail + (entries.filter (fun e => failUp e.1)).length := by
  induction entries generalizing st with
  | nil => simp [upsertLoop]
  | cons e rest ih =>
    show (upsertLoop destKeys failUp (upsertStep destKeys failUp st e) rest).fail = _
    rw [ih]
    unfold upsertStep
    by_cases h1 : failUp e.1
    · rw [if_pos h1, List.filter_cons_of_pos (by simp [h1])]
      simp only [List.length_cons]
      omega
    · rw [if_neg h1, List.filter_cons_of_neg (by simp [h1])]
      by_cases h2 : e.1 ∈ destKeys
      · rw [if_pos h2]
      · rw [if_neg h2]

theorem upsertLoop_ins (destKeys : List (Key α)) (failUp : Key α → Bool)
    (st : UpState α) (entries : List (Key α × List α)) :
    (upsertLoop destKeys failUp st entries).ins =
      st.ins + (entries.filter
        (fun e => !failUp e.1 && decide (e.1 ∉ destKeys))).length := by
  induction entries generalizing st with
  | nil => simp [upsertLoop]
  | cons e rest ih =>
    show (upsertLoop destKeys failUp (upsertStep destKeys failUp st e) rest).ins = _
    rw [ih]
    unfold upsertStep
    by_cases h1 : failUp e.1
    · rw [if_pos h1, List.filter_cons_of_neg (by simp [h1])]
    · rw [if_neg h1]
      by_cases h2 : e.1 ∈ destKeys
      · rw [if_pos h2, List.filter_cons_of_neg (by simp [h1, h2])]
      · rw [if_neg h2, List.filter_cons_of_pos (by simp [h1, h2])]
        simp only [List.length_cons]
        omega

theorem upsertLoop_mem_preserved (destKeys : List (Key α)) (failUp : Key α → Bool)
    (entries : List (Key α × List α)) (st : UpState α) (r : List α)
    (hr : r ∈ st.dest) (h : ∀ e ∈ entries, rowKey r ≠ e.1) :
    r ∈ (upsertLoop destKeys failUp st entries).dest := by
  induction entries generalizing st with
  | nil => exact hr
  | cons e rest ih =>
    show r ∈ (upsertLoop destKeys failUp (upsertStep destKeys failUp st e) rest).dest
    refine ih _ ?_ (fun e' he' => h e' (List.mem_cons_of_mem _ he'))
    unfold upsertStep
    by_cases h1 : failUp e.1
    · rw [if_pos h1]
      exact hr
    · rw [if_neg h1]
      by_cases h2 : e.1 ∈ destKeys
      · rw [if_pos h2]
        exact mem_updateFirst_of_ne e.1 e.2 st.dest r hr (h e (List.mem_cons_self _ _))
      · rw [if_neg h2]
        exact List.mem_append_left _ hr

theorem upsertLoop_dest_id (destKeys : List (Key α)) (failUp : Key α → Bool)
    (entries : List (Key α × List α)) (st : UpState α)
    (h : ∀ e ∈ entries, failUp e.1 = false → e.1 ∈ destKeys ∧
          st.dest.filter (fun x => decide (rowKey x = e.1)) = [e.2]) :
    (upsertLoop destKeys failUp st entries).dest = st.dest := by
  induction entries generalizing st with
  | nil => rfl
  | cons e rest ih =>
    have hstep : (upsertStep destKeys failUp st e).dest = st.dest := by
      unfold upsertStep
      by_cases h1 : failUp e.1
      · rw [if_pos h1]
      · obtain ⟨hk, hf⟩ := h e (List.mem_cons_self _ _) (by simpa using h1)
        rw [if_neg h1, if_pos hk]
        exact updateFirst_self e.1 e.2 st.dest hf
    show (upsertLoop destKeys failUp (upsertStep destKeys failUp st e) rest).dest = st.dest
    rw [ih _ (by rw [hstep]; exact fun e' he' => h e' (List.mem_cons_of_mem _ he')), hstep]

/-! ### Deletion-pass lemmas -/

theorem deletePass_eq (toDelete : List (Key α)) (failDel : List α → Bool)
    (rows : List (List α)) :
    deletePass toDelete failDel rows =
      (rows.filter (fun r => !(decide (rowKey r ∈ toDelete) && !failDel r)),
       (rows.filter (fun r => decide (rowKey r ∈ toDelete) && !failDel r)).length) := by
  induction rows with
  | nil => rfl
  | cons r rs ih =>
    show (let rest := deletePass toDelete failDel rs
          if rowKey r ∈ toDelete then
            if failDel r then (r :: rest.1, rest.2) else (rest.1, rest.2 + 1)
          else (r :: rest.1, rest.2)) = _
    rw [ih]
    by_cases h1 : rowKey r ∈ toDelete
    · by_cases h2 : failDel r
      · rw [if_pos h1, if_pos h2, List.filter_cons_of_pos (by simp [h1, h2]),
          List.filter_cons_of_neg (by simp [h1, h2])]
      · rw [if_pos h1, if_neg h2, List.filter_cons_of_neg (by simp [h1, h2]),
          List.filter_cons_of_pos (by simp [h1, h2])]
        rfl
    · rw [if_neg h1, List.filter_cons_of_pos (by simp [h1]),
        List.filter_cons_of_neg (by simp [h1])]

theorem deletePass_nil_toDelete (failDel : List α → Bool) (rows : List (List α)) :
    deletePass ([] : List (Key α)) failDel rows = (rows, 0) := by
  rw [deletePass_eq]
  simp

/-- The two branches of the `if to_delete_keys:` guard coincide, so every
run satisfies the guard-free description. -/
theorem upsert_eq (destRows srcRows : List (List α)) (failUp : Key α → Bool)
    (failDel : List α → Bool) :
    upsert_blocks_and_parcels destRows srcRows failUp failDel =
      ⟨(deletePass (toDeleteOf destRows srcRows) failDel
          (upsertLoop (dictKeys destRows) failUp ⟨destRows, 0, 0, 0⟩
            (buildDict srcRows)).dest).1,
       (upsertLoop (dictKeys destRows) failUp ⟨destRows, 0, 0, 0⟩
            (buildDict srcRows)).success,
       (upsertLoop (dictKeys destRows) failUp ⟨destRows, 0, 0, 0⟩
            (buildDict srcRows)).fail,
       (deletePass (toDeleteOf destRows srcRows) failDel
          (upsertLoop (dictKeys destRows) failUp ⟨destRows, 0, 0, 0⟩
            (buildDict srcRows)).dest).2,
       (upsertLoop (dictKeys destRows) failUp ⟨destRows, 0, 0, 0⟩
            (buildDict srcRows)).ins⟩ := by
  unfold upsert_blocks_and_parcels
  by_cases h : (toDeleteOf destRows srcRows).isEmpty
  · rw [if_pos h]
    rw [List.isEmpty_iff] at h
    rw [h, deletePass_nil_toDelete]
  · rw [if_neg h]

theorem deletePass_no_fail (toDelete : List (Key α)) (rows : List (List α)) :
    deletePass toDelete (fun _ => false) rows =
      (rows.filter (fun r => !decide (rowKey r ∈ toDelete)),
       (rows.filter (fun r => decide (rowKey r ∈ toDelete))).length) := by
  rw [deletePass_eq]
  simp

theorem filter_key_filter_not_td (rows : List (List α)) (toDelete : List (Key α))
    (k : Key α) (hk : k ∉ toDelete) :
    (rows.filter (fun r => !decide (rowKey r ∈ toDelete))).filter
        (fun x => decide (rowKey x = k)) =
      rows.filter (fun x => decide (rowKey x = k)) := by
  induction rows with
  | nil => rfl
  | cons a rs ih =>
    by_cases hak : rowKey a = k
    · have hatd : rowKey a ∉ toDelete := by rw [hak]; exact hk
      rw [List.filter_cons_of_pos (by simp [hatd]),
        List.filter_cons_of_pos (by simp [hak]),
        List.filter_cons_of_pos (by simp [hak]), ih]
    · by_cases hatd : rowKey a ∈ toDelete
      · rw [List.filter_cons_of_neg (by simp [hatd]),
          List.filter_cons_of_neg (by simp [hak]), ih]
      · rw [List.filter_cons_of_pos (by simp [hatd]),
          List.filter_cons_of_neg (by simp [hak]),
          List.filter_cons_of_neg (by simp [hak]), ih]

theorem filter_key_filter_td_mem (rows : List (List α)) (toDelete : List (Key α))
    (k : Key α) (hk : k ∈ toDelete) :
    (rows.filter (fun r => !decide (rowKey r ∈ toDelete))).filter
        (fun x => decide (rowKey x = k)) = [] := by
  rw [List.filter_eq_nil_iff]
  intro a ha
  have ha' := List.mem_filter.1 ha
  simp only [Bool.not_eq_true', decide_eq_false_iff_not] at ha'
  simp only [decide_eq_true_eq]
  intro hc
  exact ha'.2 (hc ▸ hk)

theorem buildDict_key_mem (rows : List (List α)) (e : Key α × List α)
    (he : e ∈ buildDict rows) : e.1 ∈ rows.map rowKey := by
  have h1 : e.1 ∈ (buildDict rows).map Prod.fst := List.mem_map_of_mem Prod.fst he
  exact (mem_dictKeys rows e.1).1 h1

/-- Side condition for preservation lemmas: an entry of the source dict
never touches a key that is absent from the source key list. -/
theorem buildDict_pred_of_not_src (srcRows : List (List α)) (k : Key α)
    (hk : k ∉ srcRows.map rowKey) :
    ∀ e ∈ buildDict srcRows, (fun x => decide (rowKey x = k)) e.2 = false ∧
      ∀ x : List α, rowKey x = e.1 → (fun x => decide (rowKey x = k)) x = false := by
  intro e he
  have hne : e.1 ≠ k := by
    intro hc
    exact hk (hc ▸ buildDict_key_mem srcRows e he)
  constructor
  · simp only [decide_eq_false_iff_not]
    rw [buildDict_entry_key srcRows e he]
    exact hne
  · intro x hx
    simp only [decide_eq_false_iff_not]
    rw [hx]
    exact hne

/-- Central characterisation of a failure-free reconciliation run on
well-formed collections: for every key, the rows of the final destination
bearing that key are exactly the source rows bearing that key. -/
theorem upsert_dest_filter_key (destRows srcRows : List (List α))
    (hnd : (destRows.map rowKey).Nodup) (hns : (srcRows.map rowKey).Nodup)
    (k : Key α) :
    ((upsert_blocks_and_parcels destRows srcRows
        (fun _ => false) (fun _ => false)).dest).filter
        (fun x => decide (rowKey x = k)) =
      srcRows.filter (fun x => decide (rowKey x = k)) := by
  rw [upsert_eq]
  dsimp only
  rw [deletePass_no_fail]
  dsimp only
  by_cases hk : k ∈ srcRows.map rowKey
  · obtain ⟨r, hr, hkr⟩ := List.mem_map.1 hk
    subst hkr
    rw [filter_key_singleton_of_nodup srcRows r hns hr]
    have hktd : rowKey r ∉ toDeleteOf destRows srcRows := by
      intro hc
      exact ((mem_toDeleteOf _ _ _).1 hc).2 hk
    rw [filter_key_filter_not_td _ _ _ hktd]
    refine upsertLoop_key_filter (dictKeys destRows) (fun _ => false) (rowKey r) r rfl
      (buildDict srcRows) ⟨destRows, 0, 0, 0⟩ (buildDict_entry_key srcRows)
      (buildDict_keys_nodup srcRows) ?_ ?_
    · rw [buildDict_eq_map srcRows hns]
      exact List.mem_map_of_mem _ hr
    · split
    -- the initial destination holds at most one row with this key
      · rename_i hmemk
        have hdk : rowKey r ∈ destRows.map rowKey := (mem_dictKeys destRows _).1 hmemk
        obtain ⟨d, hd, hkd⟩ := List.mem_map.1 hdk
        exact ⟨d, by rw [← hkd]; exact filter_key_singleton_of_nodup destRows d hnd hd⟩
      · rename_i hmemk
        exact filter_key_of_not_mem destRows _ (fun hc => hmemk ((mem_dictKeys destRows _).2 hc))
  · rw [filter_key_of_not_mem srcRows k hk]
    by_cases hdk : k ∈ destRows.map rowKey
    · exact filter_key_filter_td_mem _ _ _ ((mem_toDeleteOf _ _ _).2 ⟨hdk, hk⟩)
    · have hktd : k ∉ toDeleteOf destRows srcRows := by
        intro hc
        exact hdk ((mem_toDeleteOf _ _ _).1 hc).1
      rw [filter_key_filter_not_td _ _ _ hktd]
      rw [upsertLoop_dest_filter (dictKeys destRows) (fun _ => false) _
        (buildDict srcRows) ⟨destRows, 0, 0, 0⟩ (buildDict_pred_of_not_src srcRows k hk)]
      exact filter_key_of_not_mem destRows k hdk

theorem length_filter_add_length_filter_not {β : Type} (p : β → Bool) (l : List β) :
    (l.filter p).length + (l.filter (fun x => !p x)).length = l.length := by
  induction l with
  | nil => rfl
  | cons a l ih =>
    by_cases h : p a
    · rw [List.filter_cons_of_pos h, List.filter_cons_of_neg (by simp [h])]
      simp only [List.length_cons]
      omega
    · rw [List.filter_cons_of_neg (by simpa using h),
        List.filter_cons_of_pos (by simpa using h)]
      simp only [List.length_cons]
      omega

/-- The reported `delete_count` counts exactly the destination rows whose
key is stale and whose deletion did not raise; a raising deletion is not
reflected in any counter. -/
theorem upsert_deleted_eq (destRows srcRows : List (List α))
    (failUp : Key α → Bool) (failDel : List α → Bool) :
    (upsert_blocks_and_parcels destRows srcRows failUp failDel).deleted =
      (destRows.filter
        (fun r => decide (rowKey r ∉ srcRows.map rowKey) && !failDel r)).length := by
  rw [upsert_eq]
  dsimp only
  rw [deletePass_eq]
  dsimp only
  have hpred : ∀ e ∈ buildDict srcRows,
      (fun r => decide (rowKey r ∈ toDeleteOf destRows srcRows) && !failDel r) e.2 = false ∧
      ∀ x : List α, rowKey x = e.1 →
        (fun r => decide (rowKey r ∈ toDeleteOf destRows srcRows) && !failDel r) x = false := by
    intro e he
    have hsrc : e.1 ∈ srcRows.map rowKey := buildDict_key_mem srcRows e he
    have htd : e.1 ∉ toDeleteOf destRows srcRows := by
      intro hc
      exact ((mem_toDeleteOf _ _ _).1 hc).2 hsrc
    constructor
    · have : rowKey e.2 ∉ toDeleteOf destRows srcRows := by
        rw [buildDict_entry_key srcRows e he]
        exact htd
      simp [this]
    · intro x hx
      have : rowKey x ∉ toDeleteOf destRows srcRows := by rw [hx]; exact htd
      simp [this]
  rw [upsertLoop_dest_filter (dictKeys destRows) failUp _ (buildDict srcRows)
    ⟨destRows, 0, 0, 0⟩ hpred]
  dsimp only
  congr 1
  refine List.filter_congr ?_
  intro r hr
  have : (rowKey r ∈ toDeleteOf destRows srcRows) ↔ rowKey r ∉ srcRows.map rowKey := by
    rw [mem_toDeleteOf]
    simp [List.mem_map_of_mem rowKey hr]
  by_cases h : rowKey r ∉ srcRows.map rowKey
  · simp [this, h]
  · simp [this, h]

/-- A stale destination row whose deletion raises survives the run. -/
theorem upsert_stale_mem_of_failDel (destRows srcRows : List (List α))
    (failUp : Key α → Bool) (failDel : List α → Bool) (r : List α)
    (hr : r ∈ destRows) (hstale : rowKey r ∉ srcRows.map rowKey)
    (hfd : failDel r = true) :
    r ∈ (upsert_blocks_and_parcels destRows srcRows failUp failDel).dest := by
  rw [upsert_eq]
  dsimp only
  rw [deletePass_eq]
  dsimp only
  refine List.mem_filter.2 ⟨?_, by simp [hfd]⟩
  refine upsertLoop_mem_preserved (dictKeys destRows) failUp (buildDict srcRows)
    ⟨destRows, 0, 0, 0⟩ r hr ?_
  intro e he hc
  exact hstale (hc ▸ buildDict_key_mem srcRows e he)

/-- A stale destination row can survive the run only when its deletion
raised. -/
theorem upsert_stale_in_dest (destRows srcRows : List (List α))
    (failUp : Key α → Bool) (failDel : List α → Bool) (r : List α)
    (hr : r ∈ (upsert_blocks_and_parcels destRows srcRows failUp failDel).dest)
    (hdk : rowKey r ∈ destRows.map rowKey)
    (hstale : rowKey r ∉ srcRows.map rowKey) :
    failDel r = true := by
  rw [upsert_eq] at hr
  dsimp only at hr
  rw [deletePass_eq] at hr
  dsimp only at hr
  have hp := (List.mem_filter.1 hr).2
  have htd : rowKey r ∈ toDeleteOf destRows srcRows :=
    (mem_toDeleteOf _ _ _).2 ⟨hdk, hstale⟩
  rw [decide_eq_true htd] at hp
  simpa using hp

theorem filter_comp_map {β γ : Type} (f : β → γ) (p : γ → Bool) (l : List β) :
    (l.map f).filter p = (l.filter (fun x => p (f x))).map f := by
  induction l with
  | nil => rfl
  | cons a l ih =>
    by_cases h : p (f a) <;> simp [List.filter_cons, h, ih]

theorem length_filter_stale_eq_card (destRows srcRows : List (List α))
    (hnd : (destRows.map rowKey).Nodup) :
    (destRows.filter (fun r => decide (rowKey r ∉ srcRows.map rowKey))).length =
      ((destRows.map rowKey).toFinset \ (srcRows.map rowKey).toFinset).card := by
  have h1 : (destRows.map rowKey).filter (fun k => decide (k ∉ srcRows.map rowKey)) =
      (destRows.filter (fun r => decide (rowKey r ∉ srcRows.map rowKey))).map rowKey :=
    filter_comp_map rowKey _ destRows
  have h2 : (destRows.filter (fun r => decide (rowKey r ∉ srcRows.map rowKey))).length =
      ((destRows.map rowKey).filter (fun k => decide (k ∉ srcRows.map rowKey))).length := by
    rw [h1, List.length_map]
  rw [h2]
  have h3 : ((destRows.map rowKey).filter
      (fun k => decide (k ∉ srcRows.map rowKey))).Nodup := hnd.filter _
  rw [← List.toFinset_card_of_nodup h3]
  congr 1
  ext k
  simp only [List.mem_toFinset, List.mem_filter, decide_eq_true_eq, Finset.mem_sdiff]

/-- C1: on well-formed collections (the composite key is unique on each
side, the data-model invariant) and a failure-free run, the reported
counters satisfy `success_count + fail_count = number of source records
attempted` and `delete_count = |destination keys \ source keys|`. -/
theorem C1_counters_sum_correctly (destRows srcRows : List (List α))
    (hnd : (destRows.map rowKey).Nodup) (hns : (srcRows.map rowKey).Nodup) :
    (upsert_blocks_and_parcels destRows srcRows
        (fun _ => false) (fun _ => false)).success +
      (upsert_blocks_and_parcels destRows srcRows
        (fun _ => false) (fun _ => false)).fail = srcRows.length ∧
    (upsert_blocks_and_parcels destRows srcRows
        (fun _ => false) (fun _ => false)).deleted =
      ((destRows.map rowKey).toFinset \ (srcRows.map rowKey).toFinset).card := by
  constructor
  · rw [upsert_eq]
    dsimp only
    rw [upsertLoop_success, upsertLoop_fail]
    dsimp only
    simp only [Bool.not_false, List.filter_true, List.filter_false, List.length_nil]
    rw [buildDict_eq_map srcRows hns, List.length_map]
    omega
  · rw [upsert_deleted_eq]
    simp only [Bool.not_false, Bool.and_true]
    exact length_filter_stale_eq_card destRows srcRows hnd

/-- C2: for a key present in both collections, after the run the (unique)
destination row bearing that key is exactly the source row bearing it —
the full attribute tuple has been overwritten with the source's values. -/
theorem C2_shared_key_overwritten (destRows srcRows : List (List α)) (r : List α)
    (hr : r ∈ srcRows) ( _hd : rowKey r ∈ destRows.map rowKey)
    (hnd : (destRows.map rowKey).Nodup) (hns : (srcRows.map rowKey).Nodup) :
    ((upsert_blocks_and_parcels destRows srcRows
        (fun _ => false) (fun _ => false)).dest).filter
        (fun x => decide (rowKey x = rowKey r)) = [r] := by
  rw [upsert_dest_filter_key destRows srcRows hnd hns (rowKey r)]
  exact filter_key_singleton_of_nodup srcRows r hns hr

/-- C3: a destination key absent from the source is absent from the
destination after the run — no surviving row bears it. -/
theorem C3_stale_key_removed (destRows srcRows : List (List α)) (k : Key α)
    (hdk : k ∈ destRows.map rowKey) (hsk : k ∉ srcRows.map rowKey) :
    ∀ r ∈ (upsert_blocks_and_parcels destRows srcRows
        (fun _ => false) (fun _ => false)).dest, rowKey r ≠ k := by
  intro r hr hc
  rw [← hc] at hdk hsk
  have hfd := upsert_stale_in_dest destRows srcRows
    (fun _ => false) (fun _ => false) r hr hdk hsk
  simp at hfd

/-- C4: a source row whose key is absent from the destination is present
in the destination after the run, with the source's attribute values (it
is the unique row bearing that key). -/
theorem C4_new_key_inserted (destRows srcRows : List (List α)) (r : List α)
    (hr : r ∈ srcRows) ( _habs : rowKey r ∉ destRows.map rowKey)
    (hnd : (destRows.map rowKey).Nodup) (hns : (srcRows.map rowKey).Nodup) :
    r ∈ (upsert_blocks_and_parcels destRows srcRows
        (fun _ => false) (fun _ => false)).dest ∧
    ((upsert_blocks_and_parcels destRows srcRows
        (fun _ => false) (fun _ => false)).dest).filter
        (fun x => decide (rowKey x = rowKey r)) = [r] := by
  have hfilter : ((upsert_blocks_and_parcels destRows srcRows
      (fun _ => false) (fun _ => false)).dest).filter
      (fun x => decide (rowKey x = rowKey r)) = [r] := by
    rw [upsert_dest_filter_key destRows srcRows hnd hns (rowKey r)]
    exact filter_key_singleton_of_nodup srcRows r hns hr
  refine ⟨?_, hfilter⟩
  have : r ∈ ((upsert_blocks_and_parcels destRows srcRows
      (fun _ => false) (fun _ => false)).dest).filter
      (fun x => decide (rowKey x = rowKey r)) := by
    rw [hfilter]
    exact List.mem_singleton.2 rfl
  exact (List.mem_filter.1 this).1

/-- C5: the reconciler is idempotent — running it again with the same
source against the destination produced by the first run changes nothing:
the insert branch never fires, no row is deleted, and every update writes
back the value already present. -/
theorem C5_reconciler_idempotent (destRows srcRows : List (List α))
    (hnd : (destRows.map rowKey).Nodup) (hns : (srcRows.map rowKey).Nodup) :
    (upsert_blocks_and_parcels
        (upsert_blocks_and_parcels destRows srcRows
          (fun _ => false) (fun _ => false)).dest
        srcRows (fun _ => false) (fun _ => false)).dest =
      (upsert_blocks_and_parcels destRows srcRows
        (fun _ => false) (fun _ => false)).dest ∧
    (upsert_blocks_and_parcels
        (upsert_blocks_and_parcels destRows srcRows
          (fun _ => false) (fun _ => false)).dest
        srcRows (fun _ => false) (fun _ => false)).ins = 0 ∧
    (upsert_blocks_and_parcels
        (upsert_blocks_and_parcels destRows srcRows
          (fun _ => false) (fun _ => false)).dest
        srcRows (fun _ => false) (fun _ => false)).deleted = 0 := by
  set D := (upsert_blocks_and_parcels destRows srcRows
    (fun _ => false) (fun _ => false)).dest with hDdef
  have hD : ∀ k, D.filter (fun x => decide (rowKey x = k)) =
      srcRows.filter (fun x => decide (rowKey x = k)) := by
    intro k
    rw [hDdef]
    exact upsert_dest_filter_key destRows srcRows hnd hns k
  have hDmem : ∀ k, k ∈ D.map rowKey ↔ k ∈ srcRows.map rowKey := by
    intro k
    constructor
    · intro hk
      obtain ⟨r, hrD, hkr⟩ := List.mem_map.1 hk
      subst hkr
      have hrf : r ∈ D.filter (fun x => decide (rowKey x = rowKey r)) :=
        List.mem_filter.2 ⟨hrD, by simp⟩
      rw [hD] at hrf
      exact List.mem_map_of_mem rowKey (List.mem_filter.1 hrf).1
    · intro hk
      obtain ⟨r, hrS, hkr⟩ := List.mem_map.1 hk
      subst hkr
      have hrf : r ∈ D.filter (fun x => decide (rowKey x = rowKey r)) := by
        rw [hD]
        exact List.mem_filter.2 ⟨hrS, by simp⟩
      exact List.mem_map_of_mem rowKey (List.mem_filter.1 hrf).1
  have htd : toDeleteOf D srcRows = [] := by
    unfold toDeleteOf
    rw [List.filter_eq_nil_iff]
    intro k hk
    simp only [decide_eq_true_eq, not_not]
    rw [mem_dictKeys]
    exact (hDmem k).1 ((mem_dictKeys D k).1 hk)
  have hid : (upsertLoop (dictKeys D) (fun _ => false) ⟨D, 0, 0, 0⟩
      (buildDict srcRows)).dest = D := by
    refine upsertLoop_dest_id _ _ _ _ ?_
    intro e he _
    have hk : e.1 ∈ srcRows.map rowKey := buildDict_key_mem srcRows e he
    refine ⟨(mem_dictKeys D e.1).2 ((hDmem e.1).2 hk), ?_⟩
    rw [buildDict_eq_map srcRows hns] at he
    obtain ⟨r, hrS, hre⟩ := List.mem_map.1 he
    cases hre
    show D.filter (fun x => decide (rowKey x = rowKey r)) = [r]
    rw [hD]
    exact filter_key_singleton_of_nodup srcRows r hns hrS
  refine ⟨?_, ?_, ?_⟩
  · rw [upsert_eq]
    dsimp only
    rw [htd, deletePass_nil_toDelete]
    exact hid
  · rw [upsert_eq]
    dsimp only
    rw [upsertLoop_ins]
    dsimp only
    rw [List.filter_eq_nil_iff.2 ?_, List.length_nil]
    intro e he
    have hk : e.1 ∈ srcRows.map rowKey := buildDict_key_mem srcRows e he
    simp [(mem_dictKeys D e.1).2 ((hDmem e.1).2 hk)]
  · rw [upsert_eq]
    dsimp only
    rw [htd, deletePass_nil_toDelete]

/-- C6 counterexample: the destination holds one stale row, the source is
empty, and `deleteRow` raises.  The failure is caught and the row
survives, but `success_count = fail_count = delete_count = 0`: no counter
reflects the deletion failure, contradicting the claim that it is
counted. -/
theorem C6_deletion_failure_not_counted_cex :
    (upsert_blocks_and_parcels [[0, 3, 3, 3]] ([] : List (List Nat))
        (fun _ => false) (fun _ => true)).dest = [[0, 3, 3, 3]] ∧
    (upsert_blocks_and_parcels [[0, 3, 3, 3]] ([] : List (List Nat))
        (fun _ => false) (fun _ => true)).success = 0 ∧
    (upsert_blocks_and_parcels [[0, 3, 3, 3]] ([] : List (List Nat))
        (fun _ => false) (fun _ => true)).fail = 0 ∧
    (upsert_blocks_and_parcels [[0, 3, 3, 3]] ([] : List (List Nat))
        (fun _ => false) (fun _ => true)).deleted = 0 := by
  refine ⟨?_, ?_, ?_, ?_⟩ <;> rfl

/-- C6 (amended): a deletion failure is caught and processing continues
with the remaining candidates — every failing stale row survives, every
non-failing stale row is removed — but the failure is not reflected in
any counter: `delete_count` counts only successful deletions and
`fail_count` is untouched by the deletion pass. -/
theorem C6_deletion_failure_handling (destRows srcRows : List (List α))
    (failDel : List α → Bool) :
    (upsert_blocks_and_parcels destRows srcRows
        (fun _ => false) failDel).deleted =
      (destRows.filter
        (fun r => decide (rowKey r ∉ srcRows.map rowKey) && !failDel r)).length ∧
    (upsert_blocks_and_parcels destRows srcRows
        (fun _ => false) failDel).fail = 0 ∧
    (∀ r ∈ destRows, rowKey r ∉ srcRows.map rowKey → failDel r = true →
      r ∈ (upsert_blocks_and_parcels destRows srcRows
        (fun _ => false) failDel).dest) ∧
    (∀ r ∈ (upsert_blocks_and_parcels destRows srcRows
        (fun _ => false) failDel).dest,
      rowKey r ∈ destRows.map rowKey → rowKey r ∉ srcRows.map rowKey →
        failDel r = true) := by
  refine ⟨upsert_deleted_eq destRows srcRows _ failDel, ?_, ?_, ?_⟩
  · rw [upsert_eq]
    dsimp only
    rw [upsertLoop_fail]
    dsimp only
    simp
  · intro r hr hstale hfd
    exact upsert_stale_mem_of_failDel destRows srcRows _ failDel r hr hstale hfd
  · intro r hr hdk hstale
    exact upsert_stale_in_dest destRows srcRows _ failDel r hr hdk hstale

/-- C7: per-record insert/update failure isolation — every raising record
is counted in `fail_count`, every non-raising record in `success_count`,
the two counters exhaust the attempted source records, and a non-raising
record is still applied no matter which other records raised. -/
theorem C7_per_record_failure_isolation (destRows srcRows : List (List α))
    (failUp : Key α → Bool) (hns : (srcRows.map rowKey).Nodup) :
    (upsert_blocks_and_parcels destRows srcRows failUp (fun _ => false)).fail =
      (srcRows.filter (fun r => failUp (rowKey r))).length ∧
    (upsert_blocks_and_parcels destRows srcRows failUp (fun _ => false)).success =
      (srcRows.filter (fun r => !failUp (rowKey r))).length ∧
    (upsert_blocks_and_parcels destRows srcRows failUp (fun _ => false)).success +
      (upsert_blocks_and_parcels destRows srcRows failUp (fun _ => false)).fail =
      srcRows.length ∧
    ∀ r ∈ srcRows, failUp (rowKey r) = false → rowKey r ∉ destRows.map rowKey →
      r ∈ (upsert_blocks_and_parcels destRows srcRows failUp (fun _ => false)).dest := by
  have hfail : (upsert_blocks_and_parcels destRows srcRows failUp
      (fun _ => false)).fail = (srcRows.filter (fun r => failUp (rowKey r))).length := by
    rw [upsert_eq]
    dsimp only
    rw [upsertLoop_fail]
    dsimp only
    rw [buildDict_eq_map srcRows hns, filter_comp_map, List.length_map]
    simp
  have hsucc : (upsert_blocks_and_parcels destRows srcRows failUp
      (fun _ => false)).success =
      (srcRows.filter (fun r => !failUp (rowKey r))).length := by
    rw [upsert_eq]
    dsimp only
    rw [upsertLoop_success]
    dsimp only
    rw [buildDict_eq_map srcRows hns, filter_comp_map, List.length_map]
    simp
  refine ⟨hfail, hsucc, ?_, ?_⟩
  · rw [hfail, hsucc]
    have := length_filter_add_length_filter_not (fun r => failUp (rowKey r)) srcRows
    omega
  · intro r hr hfu habs
    have hnotdk : rowKey r ∉ dictKeys destRows :=
      fun hc => habs ((mem_dictKeys destRows _).1 hc)
    have hloop : ((upsertLoop (dictKeys destRows) failUp ⟨destRows, 0, 0, 0⟩
        (buildDict srcRows)).dest).filter
        (fun x => decide (rowKey x = rowKey r)) = [r] := by
      refine upsertLoop_key_filter (dictKeys destRows) failUp (rowKey r) r hfu
        (buildDict srcRows) ⟨destRows, 0, 0, 0⟩ (buildDict_entry_key srcRows)
        (buildDict_keys_nodup srcRows) ?_ ?_
      · rw [buildDict_eq_map srcRows hns]
        exact List.mem_map_of_mem _ hr
      · rw [if_neg hnotdk]
        exact filter_key_of_not_mem destRows _ habs
    have hktd : rowKey r ∉ toDeleteOf destRows srcRows := by
      intro hc
      exact ((mem_toDeleteOf _ _ _).1 hc).2 (List.mem_map_of_mem rowKey hr)
    rw [upsert_eq]
    dsimp only
    rw [deletePass_no_fail]
    dsimp only
    have hmemf : r ∈ ((upsertLoop (dictKeys destRows) failUp ⟨destRows, 0, 0, 0⟩
        (buildDict srcRows)).dest.filter
        (fun x => !decide (rowKey x ∈ toDeleteOf destRows srcRows))).filter
        (fun x => decide (rowKey x = rowKey r)) := by
      rw [filter_key_filter_not_td _ _ _ hktd, hloop]
      exact List.mem_singleton.2 rfl
    exact (List.mem_filter.1 hmemf).1

/-- C10: when several destination rows share a stale composite key, the
deletion pass removes every one of them, and `delete_count` counts rows
removed — exactly the number of destination rows with a stale key, which
can exceed the number of stale keys. -/
theorem C10_duplicate_stale_rows_all_deleted (destRows srcRows : List (List α)) :
    (∀ r ∈ (upsert_blocks_and_parcels destRows srcRows
        (fun _ => false) (fun _ => false)).dest,
      rowKey r ∈ destRows.map rowKey → rowKey r ∈ srcRows.map rowKey) ∧
    (upsert_blocks_and_parcels destRows srcRows
        (fun _ => false) (fun _ => false)).deleted =
      (destRows.filter (fun r => decide (rowKey r ∉ srcRows.map rowKey))).length := by
  constructor
  · intro r hr hdk
    by_contra hsk
    have hfd := upsert_stale_in_dest destRows srcRows
      (fun _ => false) (fun _ => false) r hr hdk hsk
    simp at hfd
  · rw [upsert_deleted_eq]
    simp only [Bool.not_false, Bool.and_true]

/-! ### Witnesses: each claim theorem applied at a concrete input -/

theorem C1_counters_sum_correctly_witness :
    ((([[0, 2, 2, 2], [0, 3, 3, 3]] : List (List Nat)).map rowKey).Nodup) ∧
    ((([[0, 1, 1, 1], [9, 2, 2, 2]] : List (List Nat)).map rowKey).Nodup) ∧
    ((upsert_blocks_and_parcels ([[0, 2, 2, 2], [0, 3, 3, 3]] : List (List Nat))
        [[0, 1, 1, 1], [9, 2, 2, 2]] (fun _ => false) (fun _ => false)).success +
      (upsert_blocks_and_parcels ([[0, 2, 2, 2], [0, 3, 3, 3]] : List (List Nat))
        [[0, 1, 1, 1], [9, 2, 2, 2]] (fun _ => false) (fun _ => false)).fail =
      ([[0, 1, 1, 1], [9, 2, 2, 2]] : List (List Nat)).length ∧
    (upsert_blocks_and_parcels ([[0, 2, 2, 2], [0, 3, 3, 3]] : List (List Nat))
        [[0, 1, 1, 1], [9, 2, 2, 2]] (fun _ => false) (fun _ => false)).deleted =
      ((([[0, 2, 2, 2], [0, 3, 3, 3]] : List (List Nat)).map rowKey).toFinset \
        (([[0, 1, 1, 1], [9, 2, 2, 2]] : List (List Nat)).map rowKey).toFinset).card) :=
  ⟨by decide, by decide,
   C1_counters_sum_correctly _ _ (by decide) (by decide)⟩

theorem C2_shared_key_overwritten_witness :
    (([5, 1, 1, 1] : List Nat) ∈ ([[5, 1, 1, 1]] : List (List Nat))) ∧
    (rowKey ([5, 1, 1, 1] : List Nat) ∈ ([[9, 1, 1, 1]] : List (List Nat)).map rowKey) ∧
    ((([[9, 1, 1, 1]] : List (List Nat)).map rowKey).Nodup) ∧
    ((([[5, 1, 1, 1]] : List (List Nat)).map rowKey).Nodup) ∧
    ((upsert_blocks_and_parcels ([[9, 1, 1, 1]] : List (List Nat)) [[5, 1, 1, 1]]
        (fun _ => false) (fun _ => false)).dest).filter
        (fun x => decide (rowKey x = rowKey ([5, 1, 1, 1] : List Nat))) = [[5, 1, 1, 1]] :=
  ⟨by decide, by decide, by decide, by decide,
   C2_shared_key_overwritten _ _ _ (by decide) (by decide) (by decide) (by decide)⟩

theorem C3_stale_key_removed_witness :
    (((some 3, some 3, some 3) : Key Nat) ∈ ([[0, 3, 3, 3]] : List (List Nat)).map rowKey) ∧
    (((some 3, some 3, some 3) : Key Nat) ∉ ([[0, 1, 1, 1]] : List (List Nat)).map rowKey) ∧
    ∀ r ∈ (upsert_blocks_and_parcels ([[0, 3, 3, 3]] : List (List Nat)) [[0, 1, 1, 1]]
        (fun _ => false) (fun _ => false)).dest,
      rowKey r ≠ ((some 3, some 3, some 3) : Key Nat) :=
  ⟨by decide, by decide,
   C3_stale_key_removed _ _ _ (by decide) (by decide)⟩

theorem C4_new_key_inserted_witness :
    (([5, 1, 1, 1] : List Nat) ∈ ([[5, 1, 1, 1]] : List (List Nat))) ∧
    (rowKey ([5, 1, 1, 1] : List Nat) ∉ ([[9, 2, 2, 2]] : List (List Nat)).map rowKey) ∧
    ((([[9, 2, 2, 2]] : List (List Nat)).map rowKey).Nodup) ∧
    ((([[5, 1, 1, 1]] : List (List Nat)).map rowKey).Nodup) ∧
    (([5, 1, 1, 1] : List Nat) ∈ (upsert_blocks_and_parcels
        ([[9, 2, 2, 2]] : List (List Nat)) [[5, 1, 1, 1]]
        (fun _ => false) (fun _ => false)).dest ∧
    ((upsert_blocks_and_parcels ([[9, 2, 2, 2]] : List (List Nat)) [[5, 1, 1, 1]]
        (fun _ => false) (fun _ => false)).dest).filter
        (fun x => decide (rowKey x = rowKey ([5, 1, 1, 1] : List Nat))) = [[5, 1, 1, 1]]) :=
  ⟨by decide, by decide, by decide, by decide,
   C4_new_key_inserted _ _ _ (by decide) (by decide) (by decide) (by decide)⟩

theorem C5_reconciler_idempotent_witness :
    ((([[9, 1, 1, 1], [9, 3, 3, 3]] : List (List Nat)).map rowKey).Nodup) ∧
    ((([[5, 1, 1, 1], [5, 2, 2, 2]] : List (List Nat)).map rowKey).Nodup) ∧
    ((upsert_blocks_and_parcels
        (upsert_blocks_and_parcels ([[9, 1, 1, 1], [9, 3, 3, 3]] : List (List Nat))
          [[5, 1, 1, 1], [5, 2, 2, 2]] (fun _ => false) (fun _ => false)).dest
        [[5, 1, 1, 1], [5, 2, 2, 2]] (fun _ => false) (fun _ => false)).dest =
      (upsert_blocks_and_parcels ([[9, 1, 1, 1], [9, 3, 3, 3]] : List (List Nat))
        [[5, 1, 1, 1], [5, 2, 2, 2]] (fun _ => false) (fun _ => false)).dest ∧
    (upsert_blocks_and_parcels
        (upsert_blocks_and_parcels ([[9, 1, 1, 1], [9, 3, 3, 3]] : List (List Nat))
          [[5, 1, 1, 1], [5, 2, 2, 2]] (fun _ => false) (fun _ => false)).dest
        [[5, 1, 1, 1], [5, 2, 2, 2]] (fun _ => false) (fun _ => false)).ins = 0 ∧
    (upsert_blocks_and_parcels
        (upsert_blocks_and_parcels ([[9, 1, 1, 1], [9, 3, 3, 3]] : List (List Nat))
          [[5, 1, 1, 1], [5, 2, 2, 2]] (fun _ => false) (fun _ => false)).dest
        [[5, 1, 1, 1], [5, 2, 2, 2]] (fun _ => false) (fun _ => false)).deleted = 0) :=
  ⟨by decide, by decide,
   C5_reconciler_idempotent _ _ (by decide) (by decide)⟩

theorem C6_deletion_failure_handling_witness :
    (upsert_blocks_and_parcels ([[0, 3, 3, 3], [0, 4, 4, 4]] : List (List Nat)) []
        (fun _ => false) (fun r => decide (r = [0, 3, 3, 3]))).deleted =
      (([[0, 3, 3, 3], [0, 4, 4, 4]] : List (List Nat)).filter
        (fun r => decide (rowKey r ∉ ([] : List (List Nat)).map rowKey) &&
          !(decide (r = [0, 3, 3, 3])))).length ∧
    (upsert_blocks_and_parcels ([[0, 3, 3, 3], [0, 4, 4, 4]] : List (List Nat)) []
        (fun _ => false) (fun r => decide (r = [0, 3, 3, 3]))).fail = 0 ∧
    (∀ r ∈ ([[0, 3, 3, 3], [0, 4, 4, 4]] : List (List Nat)),
      rowKey r ∉ ([] : List (List Nat)).map rowKey → decide (r = [0, 3, 3, 3]) = true →
      r ∈ (upsert_blocks_and_parcels ([[0, 3, 3, 3], [0, 4, 4, 4]] : List (List Nat)) []
        (fun _ => false) (fun r => decide (r = [0, 3, 3, 3]))).dest) ∧
    (∀ r ∈ (upsert_blocks_and_parcels ([[0, 3, 3, 3], [0, 4, 4, 4]] : List (List Nat)) []
        (fun _ => false) (fun r => decide (r = [0, 3, 3, 3]))).dest,
      rowKey r ∈ ([[0, 3, 3, 3], [0, 4, 4, 4]] : List (List Nat)).map rowKey →
      rowKey r ∉ ([] : List (List Nat)).map rowKey →
      decide (r = [0, 3, 3, 3]) = true) :=
  C6_deletion_failure_handling [[0, 3, 3, 3], [0, 4, 4, 4]] []
    (fun r => decide (r = [0, 3, 3, 3]))

theorem C7_per_record_failure_isolation_witness :
    ((([[5, 1, 1, 1], [5, 2, 2, 2]] : List (List Nat)).map rowKey).Nodup) ∧
    ((upsert_blocks_and_parcels ([[9, 1, 1, 1]] : List (List Nat))
        [[5, 1, 1, 1], [5, 2, 2, 2]]
        (fun k => decide (k = (some 1, some 1, some 1))) (fun _ => false)).fail =
      (([[5, 1, 1, 1], [5, 2, 2, 2]] : List (List Nat)).filter
        (fun r => decide (rowKey r = (some 1, some 1, some 1)))).length ∧
    (upsert_blocks_and_parcels ([[9, 1, 1, 1]] : List (List Nat))
        [[5, 1, 1, 1], [5, 2, 2, 2]]
        (fun k => decide (k = (some 1, some 1, some 1))) (fun _ => false)).success =
      (([[5, 1, 1, 1], [5, 2, 2, 2]] : List (List Nat)).filter
        (fun r => !decide (rowKey r = (some 1, some 1, some 1)))).length ∧
    (upsert_blocks_and_parcels ([[9, 1, 1, 1]] : List (List Nat))
        [[5, 1, 1, 1], [5, 2, 2, 2]]
        (fun k => decide (k = (some 1, some 1, some 1))) (fun _ => false)).success +
      (upsert_blocks_and_parcels ([[9, 1, 1, 1]] : List (List Nat))
        [[5, 1, 1, 1], [5, 2, 2, 2]]
        (fun k => decide (k = (some 1, some 1, some 1))) (fun _ => false)).fail =
      ([[5, 1, 1, 1], [5, 2, 2, 2]] : List (List Nat)).length ∧
    ∀ r ∈ ([[5, 1, 1, 1], [5, 2, 2, 2]] : List (List Nat)),
      decide (rowKey r = (some 1, some 1, some 1)) = false →
      rowKey r ∉ ([[9, 1, 1, 1]] : List (List Nat)).map rowKey →
      r ∈ (upsert_blocks_and_parcels ([[9, 1, 1, 1]] : List (List Nat))
        [[5, 1, 1, 1], [5, 2, 2, 2]]
        (fun k => decide (k = (some 1, some 1, some 1))) (fun _ => false)).dest) :=
  ⟨by decide,
   C7_per_record_failure_isolation _ _ _ (by decide)⟩

theorem C10_duplicate_stale_rows_all_deleted_witness :
    ((∀ r ∈ (upsert_blocks_and_parcels
        ([[0, 3, 3, 3, 5], [0, 3, 3, 3, 6]] : List (List Nat)) []
        (fun _ => false) (fun _ => false)).dest,
      rowKey r ∈ ([[0, 3, 3, 3, 5], [0, 3, 3, 3, 6]] : List (List Nat)).map rowKey →
      rowKey r ∈ ([] : List (List Nat)).map rowKey) ∧
    (upsert_blocks_and_parcels
        ([[0, 3, 3, 3, 5], [0, 3, 3, 3, 6]] : List (List Nat)) []
        (fun _ => false) (fun _ => false)).deleted =
      (([[0, 3, 3, 3, 5], [0, 3, 3, 3, 6]] : List (List Nat)).filter
        (fun r => decide (rowKey r ∉ ([] : List (List Nat)).map rowKey))).length) ∧
    (upsert_blocks_and_parcels
        ([[0, 3, 3, 3, 5], [0, 3, 3, 3, 6]] : List (List Nat)) []
        (fun _ => false) (fun _ => false)).deleted = 2 ∧
    ((([[0, 3, 3, 3, 5], [0, 3, 3, 3, 6]] : List (List Nat)).map rowKey).toFinset).card = 1 :=
  ⟨C10_duplicate_stale_rows_all_deleted [[0, 3, 3, 3, 5], [0, 3, 3, 3, 6]] [],
   by decide, by decide⟩

/-! ### `get_sql_from_columns_names` (src/common/db_operations.py) -/

/-- Python substring test `needle in haystack`. -/
def strContains (haystack needle : String) : Bool :=
  decide (needle.toList <:+: haystack.toList)

/-- Python `str.lower` (per-character lowering). -/
def strLower (s : String) : String := String.mk (s.data.map Char.toLower)

/-- The message of the `ValueError` raised on a schema mismatch.  The
Python repr of the expected/found column collections is abbreviated to a
comma-separated rendering; control flow depends only on the
`schema mismatch` marker text. -/
def mismatchMsg (tableName : String) (expected found : List String) : String :=
  "Table " ++ tableName ++ " schema mismatch! Expected: " ++
    String.intercalate ", " expected ++ ", Found: " ++
    String.intercalate ", " found

/-- The CREATE TABLE statement assembled from the field/type pairs. -/
def createTableSql (schemeName tableName : String)
    (fieldTypes : List (String × String)) : String :=
  "\n        CREATE TABLE IF NOT EXISTS " ++ schemeName ++ "." ++ tableName ++
    " (\n        " ++
    String.intercalate ",\n"
      (fieldTypes.map (fun p => "    " ++ p.1 ++ " " ++ p.2)) ++
    "\n);"

/-- The `try` block of `get_sql_from_columns_names`: run the
`information_schema.columns` query (modelled by its outcome
`queryResult`; a missing table yields `.ok []`), and when the table
exists compare the lowercased column lists, raising a `ValueError` on
mismatch.  `.ok (some s)` models the early `return ""`, `.ok none`
falling through to table creation, `.error` a raised exception. -/
def validateExisting (tableName : String) (fieldTypes : List (String × String))
    (queryResult : Except String (List String)) : Except String (Option String) :=
  match queryResult with
  | Except.error e => Except.error e
  | Except.ok existingColumns =>
    if existingColumns.isEmpty then Except.ok none
    else if existingColumns.map strLower =
        fieldTypes.map (fun p => strLower p.1) then
      Except.ok (some "")
    else
      Except.error (mismatchMsg tableName (fieldTypes.map Prod.fst) existingColumns)

/-- `get_sql_from_columns_names`: empty field set raises; a validation
exception is re-raised exactly when its text contains `schema mismatch`,
every other failure (such as a missing table) falls through to
generating the CREATE TABLE statement. -/
def get_sql_from_columns_names (tableName : String)
    (fieldTypes : List (String × String)) (schemeName : String)
    (queryResult : Except String (List String)) : Except String String :=
  if fieldTypes.isEmpty then
    Except.error "No columns names provided to create table schema"
  else
    match validateExisting tableName fieldTypes queryResult with
    | Except.ok (some s) => Except.ok s
    | Except.ok none => Except.ok (createTableSql schemeName tableName fieldTypes)
    | Except.error e =>
      if strContains e "schema mismatch" then Except.error e
      else Except.ok (createTableSql schemeName tableName fieldTypes)

theorem isInfix_of_middle {l b : List Char} (a c : List Char) (h : l <:+: b) :
    l <:+: a ++ b ++ c := by
  obtain ⟨s, t, hst⟩ := h
  exact ⟨a ++ s, t ++ c, by rw [← hst]; simp⟩

theorem strContains_mismatchMsg (tableName : String) (expected found : List String) :
    strContains (mismatchMsg tableName expected found) "schema mismatch" = true := by
  unfold strContains mismatchMsg
  rw [decide_eq_true_eq]
  have hsplit : (" schema mismatch! Expected: " : String).toList =
      (" " : String).toList ++ ("schema mismatch" : String).toList ++
        ("! Expected: " : String).toList := rfl
  have hmid : ("schema mismatch" : String).toList <:+:
      (" schema mismatch! Expected: " : String).toList :=
    ⟨(" " : String).toList, ("! Expected: " : String).toList, by rw [hsplit]⟩
  have h2 := isInfix_of_middle
    (("Table " : String).toList ++ tableName.toList)
    ((String.intercalate ", " expected).toList ++ (", Found: " : String).toList ++
      (String.intercalate ", " found).toList) hmid
  have harr : (("Table " ++ tableName ++ " schema mismatch! Expected: " ++
      String.intercalate ", " expected ++ ", Found: " ++
      String.intercalate ", " found : String)).toList =
      (("Table " : String).toList ++ tableName.toList) ++
        (" schema mismatch! Expected: " : String).toList ++
        ((String.intercalate ", " expected).toList ++ (", Found: " : String).toList ++
          (String.intercalate ", " found).toList) := by
    simp
  rw [harr]
  exact h2

theorem strContains_createTableSql (schemeName tableName : String)
    (fieldTypes : List (String × String)) :
    strContains (createTableSql schemeName tableName fieldTypes)
      "CREATE TABLE" = true := by
  unfold strContains createTableSql
  rw [decide_eq_true_eq]
  have hsplit : ("\n        CREATE TABLE IF NOT EXISTS " : String).toList =
      ("\n        " : String).toList ++ ("CREATE TABLE" : String).toList ++
        (" IF NOT EXISTS " : String).toList := rfl
  have hmid : ("CREATE TABLE" : String).toList <:+:
      ("\n        CREATE TABLE IF NOT EXISTS " : String).toList :=
    ⟨("\n        " : String).toList, (" IF NOT EXISTS " : String).toList, by rw [hsplit]⟩
  have h2 := isInfix_of_middle ([] : List Char)
    (schemeName.toList ++ ("." : String).toList ++ tableName.toList ++
      (" (\n        " : String).toList ++
      (String.intercalate ",\n"
        (fieldTypes.map (fun p => "    " ++ p.1 ++ " " ++ p.2))).toList ++
      ("\n);" : String).toList) hmid
  have harr : (("\n        CREATE TABLE IF NOT EXISTS " ++ schemeName ++ "." ++
      tableName ++ " (\n        " ++
      String.intercalate ",\n"
        (fieldTypes.map (fun p => "    " ++ p.1 ++ " " ++ p.2)) ++
      "\n);" : String)).toList =
      [] ++ ("\n        CREATE TABLE IF NOT EXISTS " : String).toList ++
        (schemeName.toList ++ ("." : String).toList ++ tableName.toList ++
          (" (\n        " : String).toList ++
          (String.intercalate ",\n"
            (fieldTypes.map (fun p => "    " ++ p.1 ++ " " ++ p.2))).toList ++
          ("\n);" : String).toList) := by
    simp
  rw [harr]
  exact h2

theorem createTableSql_ne_empty (schemeName tableName : String)
    (fieldTypes : List (String × String)) :
    createTableSql schemeName tableName fieldTypes ≠ "" := by
  intro hc
  have hdata := congrArg String.toList hc
  unfold createTableSql at hdata
  simp at hdata

/-- C8: with a nonempty expected field set, a lowercase-insensitive
column-list mismatch on an existing table makes
`get_sql_from_columns_names` re-raise (the error text carries the
`schema mismatch` marker), while a table that does not exist (empty
query result) is non-fatal and yields a nonempty CREATE TABLE
statement — the two outcomes are distinguished. -/
theorem C8_schema_mismatch_fatal_missing_table_creates
    (tableName schemeName : String) (fieldTypes : List (String × String))
    (cols : List String) (hft : fieldTypes ≠ []) (hcols : cols ≠ [])
    (hmm : cols.map strLower ≠ fieldTypes.map (fun p => strLower p.1)) :
    (∃ msg, get_sql_from_columns_names tableName fieldTypes schemeName
        (Except.ok cols) = Except.error msg ∧
        strContains msg "schema mismatch" = true) ∧
    (∃ sql, get_sql_from_columns_names tableName fieldTypes schemeName
        (Except.ok []) = Except.ok sql ∧ sql ≠ "" ∧
        strContains sql "CREATE TABLE" = true) := by
  have hfe : fieldTypes.isEmpty = false := by simpa using hft
  constructor
  · refine ⟨mismatchMsg tableName (fieldTypes.map Prod.fst) cols, ?_,
      strContains_mismatchMsg _ _ _⟩
    have hval : validateExisting tableName fieldTypes (Except.ok cols) =
        Except.error (mismatchMsg tableName (fieldTypes.map Prod.fst) cols) := by
      unfold validateExisting
      dsimp only
      rw [if_neg (by simpa using hcols), if_neg hmm]
    unfold get_sql_from_columns_names
    rw [if_neg (by simp [hfe]), hval]
    dsimp only
    rw [if_pos (strContains_mismatchMsg tableName (fieldTypes.map Prod.fst) cols)]
  · refine ⟨createTableSql schemeName tableName fieldTypes, ?_,
      createTableSql_ne_empty _ _ _, strContains_createTableSql _ _ _⟩
    have hval : validateExisting tableName fieldTypes (Except.ok []) =
        Except.ok none := by
      unfold validateExisting
      dsimp only
      rfl
    unfold get_sql_from_columns_names
    rw [if_neg (by simp [hfe]), hval]

theorem C8_schema_mismatch_fatal_missing_table_creates_witness :
    (([("a", "int")] : List (String × String)) ≠ []) ∧
    ((["b"] : List String) ≠ []) ∧
    ((["b"] : List String).map strLower ≠
      ([("a", "int")] : List (String × String)).map (fun p => strLower p.1)) ∧
    ((∃ msg, get_sql_from_columns_names "parcels" [("a", "int")] "org_structure"
        (Except.ok ["b"]) = Except.error msg ∧
        strContains msg "schema mismatch" = true) ∧
     (∃ sql, get_sql_from_columns_names "parcels" [("a", "int")] "org_structure"
        (Except.ok []) = Except.ok sql ∧ sql ≠ "" ∧
        strContains sql "CREATE TABLE" = true)) :=
  ⟨by decide, by decide, by decide,
   C8_schema_mismatch_fatal_missing_table_creates _ _ _ _
     (by decide) (by decide) (by decide)⟩

/-! ### Extraction stage (`main` of src/from_CC_to_GIS.py) -/

/-- The JSON-key → GDB-column mapping table of `map_json_to_gdb_columns`
(`SYS_DATE` maps to `idkun_talar_date`). -/
def jsonMapping : List (String × String) :=
  [("PARCEL_ID", "parcel_id"), ("GUSH_NUM", "gush_num"),
   ("GUSH_SUFFI", "gush_suffix"), ("PARCEL", "parcel"),
   ("LEGAL_AREA", "legal_area"), ("STATUS", "status"),
   ("STATUS_TEX", "status_text"), ("LOCALITY_I", "locality_id"),
   ("LOCALITY_N", "locality_name"), ("REG_MUN_ID", "reg_mun_id"),
   ("REG_MUN_NA", "reg_mun_name"), ("COUNTY_ID", "county_id"),
   ("COUNTY_NAM", "county_name"), ("REGION_ID", "region_id"),
   ("REGION_NAM", "region_name"), ("TALAR_NUMB", "talar_numb"),
   ("TALAR_YEAR", "talar_year"), ("SYS_DATE", "idkun_talar_date")]

/-- The 29 GDB attribute columns (the geometry column is handled
separately). -/
def gdb_columns : List String :=
  ["parcel_id", "gush_num", "gush_suffix", "parcel", "pnumtype",
   "pnumtype_text", "legal_area", "status", "status_text", "locality_id",
   "locality_name", "reg_mun_id", "reg_mun_name", "county_id",
   "county_name", "region_id", "region_name", "wp", "wp_status",
   "wp_status_text", "talar_numb", "talar_year", "idkun_talar_date",
   "xoid", "gparcel", "globalid", "gdb_archive_oid", "gdb_from_date",
   "gdb_to_date"]

/-- `map_json_to_gdb_columns`: initialise every column to `None`, then
for each mapping pair whose JSON key occurs in the payload overwrite the
target column with the payload's value; unmapped payload keys are
dropped.  Payload values stay abstract (`β`). -/
def map_json_to_gdb_columns {β : Type} (json_data : List (String × β)) :
    List (String × Option β) :=
  jsonMapping.foldl
    (fun res p =>
      match json_data.lookup p.1 with
      | some v => res.map (fun q => if q.1 = p.2 then (q.1, some v) else q)
      | none => res)
    (gdb_columns.map (fun c => (c, (none : Option β))))

/-- `wkt_to_arcpy_geometry`: a falsy (empty) WKT text returns `None`
immediately; otherwise `arcpy.FromWKT` is modelled by a parse oracle
whose `none` outcome covers every failure path of the function (all of
which log and return `None`). -/
def wkt_to_arcpy_geometry {γ : Type} (parse : String → Option γ)
    (w : String) : Option γ :=
  if w = "" then none else parse w

/-- One record of the source query result: the row id `row[0]`, the WKT
polygon text `row[4]` and the decoded JSON payload `row[8]`. -/
structure CCRow (β : Type) where
  rid : Nat
  wkt : String
  payload : List (String × β)

/-- State of the extraction loop of `main`: the feature-class rows
inserted so far (geometry, mapped columns, assigned xoid), the
`inserted_count` and `error_count` counters, and the mutable counter of
the `generate_xoid` closure. -/
structure ExtractState (γ β : Type) where
  rows : List (γ × List (String × Option β) × Nat)
  inserted_count : Nat
  error_count : Nat
  counter : Nat

/-- The per-record loop of `main`: map the payload, parse the geometry;
on a `None` geometry log, count the error and skip the record; otherwise
build the insert row (drawing the next xoid) and insert it. -/
def extractLoop {γ β : Type} (parse : String → Option γ)
    (st : ExtractState γ β) : List (CCRow β) → ExtractState γ β
  | [] => st
  | row :: rest =>
    match wkt_to_arcpy_geometry parse row.wkt with
    | none =>
      extractLoop parse { st with error_count := st.error_count + 1 } rest
    | some g =>
      extractLoop parse
        { st with
            rows := st.rows ++
              [(g, map_json_to_gdb_columns row.payload, st.counter + 1)],
            inserted_count := st.inserted_count + 1,
            counter := st.counter + 1 } rest

/-- The extraction stage over a full query result, from the fresh
feature class and zeroed counters. -/
def process_records {γ β : Type} (parse : String → Option γ)
    (results : List (CCRow β)) : ExtractState γ β :=
  extractLoop parse ⟨[], 0, 0, 0⟩ results

theorem extractLoop_cons_none {γ β : Type} (parse : String → Option γ)
    (st : ExtractState γ β) (row : CCRow β) (rest : List (CCRow β))
    (h : wkt_to_arcpy_geometry parse row.wkt = none) :
    extractLoop parse st (row :: rest) =
      extractLoop parse { st with error_count := st.error_count + 1 } rest := by
  conv_lhs => unfold extractLoop
  rw [h]

theorem extractLoop_cons_some {γ β : Type} (parse : String → Option γ)
    (st : ExtractState γ β) (row : CCRow β) (rest : List (CCRow β)) (g : γ)
    (h : wkt_to_arcpy_geometry parse row.wkt = some g) :
    extractLoop parse st (row :: rest) =
      extractLoop parse
        { st with
            rows := st.rows ++
              [(g, map_json_to_gdb_columns row.payload, st.counter + 1)],
            inserted_count := st.inserted_count + 1,
            counter := st.counter + 1 } rest := by
  conv_lhs => unfold extractLoop
  rw [h]

theorem extractLoop_error_count {γ β : Type} (parse : String → Option γ) :
    ∀ (l : List (CCRow β)) (st : ExtractState γ β),
      (extractLoop parse st l).error_count = st.error_count +
        (l.filter (fun r => (wkt_to_arcpy_geometry parse r.wkt).isNone)).length := by
  intro l
  induction l with
  | nil => intro st; simp [extractLoop]
  | cons row rest ih =>
    intro st
    cases h : wkt_to_arcpy_geometry parse row.wkt with
    | none =>
      rw [extractLoop_cons_none parse st row rest h, ih,
        List.filter_cons_of_pos (by simp [h])]
      simp only [List.length_cons]
      omega
    | some g =>
      rw [extractLoop_cons_some parse st row rest g h, ih,
        List.filter_cons_of_neg (by simp [h])]

theorem extractLoop_inserted_count {γ β : Type} (parse : String → Option γ) :
    ∀ (l : List (CCRow β)) (st : ExtractState γ β),
      (extractLoop parse st l).inserted_count = st.inserted_count +
        (l.filter (fun r => (wkt_to_arcpy_geometry parse r.wkt).isSome)).length := by
  intro l
  induction l with
  | nil => intro st; simp [extractLoop]
  | cons row rest ih =>
    intro st
    cases h : wkt_to_arcpy_geometry parse row.wkt with
    | none =>
      rw [extractLoop_cons_none parse st row rest h, ih,
        List.filter_cons_of_neg (by simp [h])]
    | some g =>
      rw [extractLoop_cons_some parse st row rest g h, ih,
        List.filter_cons_of_pos (by simp [h])]
      simp only [List.length_cons]
      omega

theorem extractLoop_rows_length {γ β : Type} (parse : String → Option γ) :
    ∀ (l : List (CCRow β)) (st : ExtractState γ β),
      (extractLoop parse st l).rows.length = st.rows.length +
        (l.filter (fun r => (wkt_to_arcpy_geometry parse r.wkt).isSome)).length := by
  intro l
  induction l with
  | nil => intro st; simp [extractLoop]
  | cons row rest ih =>
    intro st
    cases h : wkt_to_arcpy_geometry parse row.wkt with
    | none =>
      rw [extractLoop_cons_none parse st row rest h, ih,
        List.filter_cons_of_neg (by simp [h])]
    | some g =>
      rw [extractLoop_cons_some parse st row rest g h, ih,
        List.filter_cons_of_pos (by simp [h])]
      simp only [List.length_cons, List.length_append, List.length_singleton,
        List.length_nil]
      omega

theorem extractLoop_mem_rows {γ β : Type} (parse : String → Option γ) :
    ∀ (l : List (CCRow β)) (st : ExtractState γ β)
      (x : γ × List (String × Option β) × Nat),
      x ∈ st.rows → x ∈ (extractLoop parse st l).rows := by
  intro l
  induction l with
  | nil => intro st x hx; exact hx
  | cons row rest ih =>
    intro st x hx
    cases h : wkt_to_arcpy_geometry parse row.wkt with
    | none =>
      rw [extractLoop_cons_none parse st row rest h]
      exact ih _ x hx
    | some g =>
      rw [extractLoop_cons_some parse st row rest g h]
      exact ih _ x (List.mem_append_left _ hx)

theorem extractLoop_mem_of_some {γ β : Type} (parse : String → Option γ) :
    ∀ (l : List (CCRow β)) (st : ExtractState γ β) (r : CCRow β) (g : γ),
      r ∈ l → wkt_to_arcpy_geometry parse r.wkt = some g →
      ∃ x, (g, map_json_to_gdb_columns r.payload, x) ∈
        (extractLoop parse st l).rows := by
  intro l
  induction l with
  | nil => intro st r g hr; cases hr
  | cons row rest ih =>
    intro st r g hr hg
    rcases List.mem_cons.1 hr with rfl | hr'
    · rw [extractLoop_cons_some parse st r rest g hg]
      refine ⟨st.counter + 1, ?_⟩
      refine extractLoop_mem_rows parse rest _ _ ?_
      dsimp only
      exact List.mem_append_right _ (List.mem_singleton.2 rfl)
    · cases h : wkt_to_arcpy_geometry parse row.wkt with
      | none =>
        rw [extractLoop_cons_none parse st row rest h]
        exact ih _ r g hr' hg
      | some g2 =>
        rw [extractLoop_cons_some parse st row rest g2 h]
        exact ih _ r g hr' hg

/-- C9: extraction-stage geometry-failure isolation — the error counter
counts exactly the records whose WKT fails to parse, the insert counter
and the container size count exactly the records that parse, the two
counters exhaust the batch (no abort), and every record with a parseable
geometry is inserted with its mapped attribute columns. -/
theorem C9_geometry_parse_failure_isolated {γ β : Type}
    (parse : String → Option γ) (results : List (CCRow β)) :
    (process_records parse results).error_count =
      (results.filter
        (fun r => (wkt_to_arcpy_geometry parse r.wkt).isNone)).length ∧
    (process_records parse results).inserted_count =
      (results.filter
        (fun r => (wkt_to_arcpy_geometry parse r.wkt).isSome)).length ∧
    (process_records parse results).inserted_count +
      (process_records parse results).error_count = results.length ∧
    (process_records parse results).rows.length =
      (process_records parse results).inserted_count ∧
    ∀ r ∈ results, ∀ g, wkt_to_arcpy_geometry parse r.wkt = some g →
      ∃ x, (g, map_json_to_gdb_columns r.payload, x) ∈
        (process_records parse results).rows := by
  have he := extractLoop_error_count parse results ⟨[], 0, 0, 0⟩
  have hi := extractLoop_inserted_count parse results ⟨[], 0, 0, 0⟩
  have hl := extractLoop_rows_length parse results ⟨[], 0, 0, 0⟩
  have hco : results.filter (fun r => (wkt_to_arcpy_geometry parse r.wkt).isNone) =
      results.filter (fun r => !(wkt_to_arcpy_geometry parse r.wkt).isSome) := by
    refine List.filter_congr ?_
    intro a _
    cases wkt_to_arcpy_geometry parse a.wkt <;> rfl
  refine ⟨by simpa using he, by simpa using hi, ?_, ?_, ?_⟩
  · show (extractLoop parse ⟨[], 0, 0, 0⟩ results).inserted_count +
      (extractLoop parse ⟨[], 0, 0, 0⟩ results).error_count = results.length
    rw [he, hi, hco]
    have hsum := length_filter_add_length_filter_not
      (fun r => (wkt_to_arcpy_geometry parse r.wkt).isSome) results
    dsimp only
    omega
  · show (extractLoop parse ⟨[], 0, 0, 0⟩ results).rows.length =
      (extractLoop parse ⟨[], 0, 0, 0⟩ results).inserted_count
    rw [hl, hi]
    rfl
  · intro r hr g hg
    exact extractLoop_mem_of_some parse results ⟨[], 0, 0, 0⟩ r g hr hg

theorem C9_geometry_parse_failure_isolated_witness :
    (process_records (fun s => if s = "GOOD" then some (1 : Nat) else none)
        ([⟨1, "GOOD", [("PARCEL_ID", 7)]⟩, ⟨2, "BAD", []⟩] : List (CCRow Nat))).error_count
      = 1 ∧
    (process_records (fun s => if s = "GOOD" then some (1 : Nat) else none)
        ([⟨1, "GOOD", [("PARCEL_ID", 7)]⟩, ⟨2, "BAD", []⟩] : List (CCRow Nat))).inserted_count
      = 1 :=
  ⟨(C9_geometry_parse_failure_isolated
      (fun s => if s = "GOOD" then some (1 : Nat) else none)
      ([⟨1, "GOOD", [("PARCEL_ID", 7)]⟩, ⟨2, "BAD", []⟩] : List (CCRow Nat))).1.trans
      (by decide),
   (C9_geometry_parse_failure_isolated
      (fun s => if s = "GOOD" then some (1 : Nat) else none)
      ([⟨1, "GOOD", [("PARCEL_ID", 7)]⟩, ⟨2, "BAD", []⟩] : List (CCRow Nat))).2.1.trans
      (by decide)⟩

end UploadToGis
